import Mathlib

/-!
# Verification of `scripts/download-heigit-surface.py`

A shallow embedding of the HeiGIT road-surface extraction pipeline.
SQL `REAL` values are modelled as `ℚ` and nullable columns as `Option ℚ`;
the `surface` output table (`osm_id INTEGER PRIMARY KEY, ...`) is modelled
as an association list from `osm_id` to the stored record, with the SQLite
`ON CONFLICT(osm_id) DO UPDATE` clause of `_insert_batch` translated field
by field, including SQL three-valued NULL semantics for `>` (a comparison
with NULL is NULL, and a NULL condition in `CASE WHEN` selects the ELSE
branch) and for the SQLite scalar `MAX` (which returns NULL if any argument
is NULL).
-/

namespace HeigitSurface

/-- SQL `x > y` as used inside `CASE WHEN ... THEN ... ELSE ... END`:
a comparison involving NULL yields NULL, and a NULL condition selects the
ELSE branch, so it is rendered as `false`. -/
def sqlGt : Option ℚ → Option ℚ → Bool
  | some a, some b => decide (b < a)
  | _, _ => false

/-- SQLite scalar `MAX(x, y)`: returns NULL if any argument is NULL. -/
def sqlMax : Option ℚ → Option ℚ → Option ℚ
  | some a, some b => some (max a b)
  | _, _ => none

/-- One extracted row, as produced by the `SELECT` in `extract_surface_data`:
`(osm_id, pred_label, n_of_predictions_used, centroid_lat, centroid_lng)`. -/
structure Row where
  osm_id : ℤ
  pred_label : Option ℚ
  n_predictions : Option ℚ
  centroid_lat : Option ℚ
  centroid_lng : Option ℚ
deriving DecidableEq

/-- A stored record of the `surface` table (everything but the key). -/
structure Stored where
  pred_label : Option ℚ
  n_predictions : Option ℚ
  centroid_lat : Option ℚ
  centroid_lng : Option ℚ
deriving DecidableEq

/-- The `surface` table: association list keyed by `osm_id`
(`INTEGER PRIMARY KEY` makes the key unique; insertion order is kept). -/
def Table := List (ℤ × Stored)
deriving DecidableEq

/-- The record a fresh `INSERT` of a row stores. -/
def rowToStored (r : Row) : Stored :=
  { pred_label := r.pred_label
    n_predictions := r.n_predictions
    centroid_lat := r.centroid_lat
    centroid_lng := r.centroid_lng }

/-- The `ON CONFLICT(osm_id) DO UPDATE SET` clause of `_insert_batch`:
`pred_label`, `centroid_lat`, `centroid_lng` are replaced by the incoming
(`excluded`) values only when `excluded.n_predictions > surface.n_predictions`
is TRUE, and `n_predictions` becomes `MAX(surface.n_predictions,
excluded.n_predictions)`.  All right-hand sides read the pre-update row. -/
def mergeStored (s : Stored) (r : Row) : Stored :=
  { pred_label :=
      if sqlGt r.n_predictions s.n_predictions then r.pred_label else s.pred_label
    n_predictions := sqlMax s.n_predictions r.n_predictions
    centroid_lat :=
      if sqlGt r.n_predictions s.n_predictions then r.centroid_lat else s.centroid_lat
    centroid_lng :=
      if sqlGt r.n_predictions s.n_predictions then r.centroid_lng else s.centroid_lng }

/-- Upsert of a single row: plain insert when the key is absent, the
conflict-resolution update when it is present. -/
def upsert1 : Table → Row → Table
  | [], r => [(r.osm_id, rowToStored r)]
  | (k, s) :: rest, r =>
    if k = r.osm_id then (k, mergeStored s r) :: rest
    else (k, s) :: upsert1 rest r

/-- Lookup by primary key. -/
def lookupT : Table → ℤ → Option Stored
  | [], _ => none
  | (k, s) :: rest, i => if k = i then some s else lookupT rest i

/-- `_insert_batch`: `executemany` upserts the rows of a batch in order. -/
def insertBatch (t : Table) (batch : List Row) : Table :=
  batch.foldl upsert1 t

/-- Applying a sequence of extracted batches in order. -/
def applyBatches (t : Table) (bs : List (List Row)) : Table :=
  bs.foldl insertBatch t

/-- The stored confidence `m` already accounts for an incoming confidence
`c`: a row carrying `c` neither wins the `CASE` comparison against `m` nor
changes `MAX(m, c)`. -/
def ConfDominates (m c : Option ℚ) : Prop :=
  sqlGt c m = false ∧ sqlMax m c = m


/-! ## Range resolver (`parse_args`) -/

def NUM_FILES : ℤ := 40

/-- Python `range(a, b)` over integers: `[a, a+1, ..., b-1]`, empty when
`b ≤ a`. -/
def pyRange (a b : ℤ) : List ℤ :=
  (List.range (b - a).toNat).map (fun i => a + i)

/-- The file-range resolution of `parse_args`: zero positional arguments
give `range(NUM_FILES)`; one argument `n` requires `0 <= n < NUM_FILES` and
gives `range(n, n + 1)`; two arguments `lo, hi` require each bound to lie in
`0 <= _ < NUM_FILES` independently and give `range(lo, hi + 1)`; more than
two arguments is a `parser.error`.  `none` models `parser.error`, which
exits before any network or database activity. -/
def resolveFileRange (files : List ℤ) : Option (List ℤ) :=
  match files with
  | [] => some (pyRange 0 NUM_FILES)
  | [n] => if 0 ≤ n ∧ n < NUM_FILES then some (pyRange n (n + 1)) else none
  | [lo, hi] =>
      if (0 ≤ lo ∧ lo < NUM_FILES) ∧ (0 ≤ hi ∧ hi < NUM_FILES) then
        some (pyRange lo (hi + 1))
      else none
  | _ => none


/-! ## Extractor (`discover_gpkg_table`, `extract_surface_data`) -/

/-- One row of the GeoPackage feature table, in the columns the script
reads: `fid` (joined against the rtree), `osm_id`, `pred_class`,
`pred_label`, `n_of_predictions_used`. -/
structure GpkgRow where
  fid : ℤ
  osm_id : ℤ
  pred_class : Option String
  pred_label : Option ℚ
  n_of_predictions_used : Option ℚ
deriving DecidableEq

/-- One rtree entry of the GeoPackage: `id` plus the bounding box. -/
structure RtreeEntry where
  id : ℤ
  minx : ℚ
  maxx : ℚ
  miny : ℚ
  maxy : ℚ
deriving DecidableEq

/-- A downloaded GeoPackage as far as the script reads it: the
`gpkg_contents` catalog may hold no `features` entry, the feature table may
have no `gpkg_geometry_columns` entry, or the file is well formed with a
feature table and its rtree. -/
inductive GpkgFile where
  | noFeatureTable
  | noGeometryColumn (tableName : String)
  | wellFormed (tableName : String) (geomColumn : String)
      (features : List GpkgRow) (rtree : List RtreeEntry)
deriving DecidableEq

/-- `discover_gpkg_table`: feature-table and rtree names from the catalog
metadata; `Except.error` models the `RuntimeError` raised on a malformed
file. -/
def discover_gpkg_table : GpkgFile → Except String (String × String)
  | .noFeatureTable => .error "No feature table found"
  | .noGeometryColumn t => .error ("No geometry column found for table " ++ t)
  | .wellFormed t g _ _ => .ok (t, "rtree_" ++ t ++ "_" ++ g)

/-- The row the extraction `SELECT` emits for a feature/rtree pair: the
centroid is the arithmetic midpoint of the bounding box. -/
def mkRow (f : GpkgRow) (r : RtreeEntry) : Row :=
  { osm_id := f.osm_id
    pred_label := f.pred_label
    n_predictions := f.n_of_predictions_used
    centroid_lat := some ((r.miny + r.maxy) / 2)
    centroid_lng := some ((r.minx + r.maxx) / 2) }

/-- The extraction query:
`SELECT ... FROM features f JOIN rtree r ON r.id = f.fid WHERE f.pred_class
IS NOT NULL` — one output row per matching feature/rtree pair, restricted to
features carrying a non-null ML classification. -/
def extractRows (features : List GpkgRow) (rtree : List RtreeEntry) : List Row :=
  (features.filter (fun f => f.pred_class.isSome)).flatMap
    (fun f => (rtree.filter (fun r => decide (r.id = f.fid))).map (mkRow f))

/-- `extract_surface_data`: discovers the table (propagating its
`RuntimeError` as `Except.error`), upserts the emitted rows into the output
table, and returns the new table with `(total_rows_scanned,
ml_rows_extracted)`.  The script streams the cursor in 50 000-row chunks
through `_insert_batch`; upserting the chunks in order is the single left
fold over the emitted rows in order, which is `insertBatch`. -/
def extractSurfaceData : GpkgFile → Table → Except String (Table × ℕ × ℕ)
  | .noFeatureTable, _ => .error "No feature table found"
  | .noGeometryColumn t, _ => .error ("No geometry column found for table " ++ t)
  | .wellFormed _ _ features rtree, t =>
      .ok (insertBatch t (extractRows features rtree), features.length,
           (extractRows features rtree).length)

/-- The per-file report computation `ml_count*100/scanned` of `main`;
Python `/` raises `ZeroDivisionError` when `scanned = 0`, modelled as
`none`. -/
def mlPercentage (mlCount total : ℕ) : Option ℚ :=
  if total = 0 then none else some ((mlCount * 100 : ℚ) / total)

/-! ## Main loop (`main`): resume ledger, failure handling, temp files -/

/-- `heigit_usa_roadsurface_lines_{i}.gpkg`. -/
def fileName (i : ℤ) : String :=
  "heigit_usa_roadsurface_lines_" ++ toString i ++ ".gpkg"

/-- What the upstream serves for one file index: a `curl` failure (which may
or may not have written a partial file at the temp path) or a successfully
downloaded GeoPackage. -/
inductive DownloadResult where
  | fail (curlWrote : Bool)
  | ok (g : GpkgFile)

/-- Observable state of `main`'s per-file loop: the resume ledger (the
values stored under the `processed_file_%` metadata keys), the `surface`
table, and effect logs — which file indices had a download request issued,
which reached extraction, and which left a file behind at the temp path
after their processing ended. -/
structure PipelineState where
  ledger : List String
  table : Table
  downloadLog : List ℤ
  extractLog : List ℤ
  tmpLeft : List ℤ

/-- State at the start of a run against a fresh output database. -/
def initState : PipelineState :=
  { ledger := [], table := [], downloadLog := [], extractLog := [], tmpLeft := [] }

/-- One iteration of `main`'s loop for file index `i`: if the ledger holds
the filename the file is skipped (`continue` before any download).
Otherwise a download is requested; on `curl` failure the loop `continue`s
BEFORE the `try`/`finally`, so no cleanup runs and a partial file, when
`curl` wrote one, stays at the temp path.  On download success extraction
runs inside `try`: an exception leaves the ledger unmarked, success merges
the rows and appends the ledger mark; either way the `finally` block removes
the temp file. -/
def processSource (world : ℤ → DownloadResult) (st : PipelineState) (i : ℤ) :
    PipelineState :=
  if fileName i ∈ st.ledger then st
  else
    match world i with
    | .fail curlWrote =>
        { st with downloadLog := st.downloadLog ++ [i],
                  tmpLeft := if curlWrote then st.tmpLeft ++ [i] else st.tmpLeft }
    | .ok g =>
        match extractSurfaceData g st.table with
        | .error _ =>
            { st with downloadLog := st.downloadLog ++ [i],
                      extractLog := st.extractLog ++ [i] }
        | .ok (t2, _, _) =>
            { ledger := st.ledger ++ [fileName i]
              table := t2
              downloadLog := st.downloadLog ++ [i]
              extractLog := st.extractLog ++ [i]
              tmpLeft := st.tmpLeft }

/-- `main`'s loop over the resolved file range. -/
def runFiles (world : ℤ → DownloadResult) : PipelineState → List ℤ → PipelineState
  | st, [] => st
  | st, i :: rest => runFiles world (processSource world st i) rest

/-- A world where file 0 fails to download with a partial file written,
file 1 downloads an empty well-formed GeoPackage, and every other file
fails cleanly. -/
def wMixed : ℤ → DownloadResult := fun i =>
  if i = 0 then .fail true
  else if i = 1 then .ok (.wellFormed "roads" "geom" [] [])
  else .fail false

/-- A run state whose ledger already marks file 3 as processed. -/
def stDone : PipelineState :=
  { ledger := [fileName 3], table := [], downloadLog := [], extractLog := [],
    tmpLeft := [] }

/-- A two-row shard: one feature with an ML classification, one without. -/
def features0 : List GpkgRow :=
  [⟨1, 7, some "paved", some 0, some 3⟩, ⟨2, 8, none, none, none⟩]

/-- The rtree of that shard: a box for the classified feature only. -/
def rtree0 : List RtreeEntry := [⟨1, 0, 2, 0, 4⟩]

/-- The single row the extractor emits from `features0`/`rtree0`. -/
def row0 : Row := ⟨7, some 0, some 3, some 2, some 1⟩

/-! ## Basic lookup lemmas for the upsert -/

theorem lookupT_upsert1_self (t : Table) (r : Row) :
    lookupT (upsert1 t r) r.osm_id =
      some (match lookupT t r.osm_id with
            | none => rowToStored r
            | some s => mergeStored s r) := by
  induction t with
  | nil => simp [upsert1, lookupT]
  | cons p rest ih =>
    obtain ⟨k, s⟩ := p
    by_cases hk : k = r.osm_id
    · subst hk; simp [upsert1, lookupT]
    · simp [upsert1, lookupT, hk, ih]

theorem lookupT_upsert1_other (t : Table) (r : Row) (k : ℤ) (hk : k ≠ r.osm_id) :
    lookupT (upsert1 t r) k = lookupT t k := by
  have hk' : ¬ r.osm_id = k := fun h => hk h.symm
  induction t with
  | nil => simp [upsert1, lookupT, hk']
  | cons p rest ih =>
    obtain ⟨k0, s⟩ := p
    by_cases h0 : k0 = r.osm_id
    · subst h0
      simp [upsert1, lookupT, hk']
    · simp only [upsert1, if_neg h0]
      by_cases hkk : k0 = k <;> simp [lookupT, hkk, ih]

/-- C1: for two rows with the same `osm_id` and non-null confidence proxies
`c1 < c2`, upserting them into a record set that does not yet hold the key
yields, in either order, a stored record equal to the `c2` row in every
field (prediction label, confidence proxy, and both centroid coordinates). -/
theorem C1_higher_confidence_wins_either_order (t : Table) (r1 r2 : Row) (c1 c2 : ℚ)
    (hid : r1.osm_id = r2.osm_id)
    (h1 : r1.n_predictions = some c1) (h2 : r2.n_predictions = some c2)
    (hlt : c1 < c2)
    (habs : lookupT t r2.osm_id = none) :
    lookupT (insertBatch t [r1, r2]) r2.osm_id = some (rowToStored r2) ∧
    lookupT (insertBatch t [r2, r1]) r2.osm_id = some (rowToStored r2) := by
  have habs1 : lookupT t r1.osm_id = none := by rw [hid]; exact habs
  constructor
  · show lookupT (upsert1 (upsert1 t r1) r2) r2.osm_id = _
    rw [lookupT_upsert1_self]
    have hl1 : lookupT (upsert1 t r1) r2.osm_id = some (rowToStored r1) := by
      rw [← hid, lookupT_upsert1_self, habs1]
    rw [hl1]
    obtain ⟨i1, p1, n1, a1, g1⟩ := r1
    obtain ⟨i2, p2, n2, a2, g2⟩ := r2
    simp only at h1 h2
    subst h1 h2
    simp [mergeStored, rowToStored, sqlGt, sqlMax, hlt, max_eq_right hlt.le]
  · show lookupT (upsert1 (upsert1 t r2) r1) r2.osm_id = _
    rw [← hid, lookupT_upsert1_self]
    have hl2 : lookupT (upsert1 t r2) r1.osm_id = some (rowToStored r2) := by
      rw [hid, lookupT_upsert1_self, habs]
    rw [hl2]
    obtain ⟨i1, p1, n1, a1, g1⟩ := r1
    obtain ⟨i2, p2, n2, a2, g2⟩ := r2
    simp only at h1 h2
    subst h1 h2
    simp [mergeStored, rowToStored, sqlGt, sqlMax, not_lt.mpr hlt.le, max_eq_left hlt.le]

/-- Witness for C1 on concrete rows. -/
theorem C1_higher_confidence_wins_either_order_witness :
    lookupT (insertBatch [] [⟨1, some 0, some 2, some 10, some 20⟩,
                             ⟨1, some 1, some 5, some 11, some 21⟩])
        (1 : ℤ) = some (rowToStored ⟨1, some 1, some 5, some 11, some 21⟩) ∧
    lookupT (insertBatch [] [⟨1, some 1, some 5, some 11, some 21⟩,
                             ⟨1, some 0, some 2, some 10, some 20⟩])
        (1 : ℤ) = some (rowToStored ⟨1, some 1, some 5, some 11, some 21⟩) :=
  C1_higher_confidence_wins_either_order []
    ⟨1, some 0, some 2, some 10, some 20⟩ ⟨1, some 1, some 5, some 11, some 21⟩
    2 5 rfl rfl rfl (by norm_num) rfl

/-- C3: when the incoming confidence proxy equals the stored one the upsert
leaves the stored record unchanged in every field; more generally, the
incoming row overwrites the record exactly when its confidence proxy is
strictly greater. -/
theorem C3_strict_improvement_only (s : Stored) (r : Row) (c1 c2 : ℚ)
    (h1 : s.n_predictions = some c1) (h2 : r.n_predictions = some c2) :
    (c2 = c1 → mergeStored s r = s) ∧
    (¬ c1 < c2 → mergeStored s r = s) ∧
    (c1 < c2 → mergeStored s r = rowToStored r) := by
  obtain ⟨p1, n1, a1, g1⟩ := s
  obtain ⟨i2, p2, n2, a2, g2⟩ := r
  simp only at h1 h2
  subst h1 h2
  refine ⟨fun he => ?_, fun hle => ?_, fun hlt => ?_⟩
  · subst he
    simp [mergeStored, sqlGt, sqlMax]
  · simp [mergeStored, sqlGt, sqlMax, hle, max_eq_left (not_lt.mp hle)]
  · simp [mergeStored, rowToStored, sqlGt, sqlMax, hlt, max_eq_right hlt.le]

/-- Witness for C3 on a concrete stored record and incoming rows. -/
theorem C3_strict_improvement_only_witness :
    (mergeStored ⟨some 0, some 2, some 10, some 20⟩ ⟨1, some 1, some 2, some 99, some 98⟩ =
      ⟨some 0, some 2, some 10, some 20⟩) ∧
    (mergeStored ⟨some 0, some 2, some 10, some 20⟩ ⟨1, some 1, some 5, some 11, some 21⟩ =
      rowToStored ⟨1, some 1, some 5, some 11, some 21⟩) :=
  ⟨(C3_strict_improvement_only ⟨some 0, some 2, some 10, some 20⟩
      ⟨1, some 1, some 2, some 99, some 98⟩ 2 2 rfl rfl).1 rfl,
   (C3_strict_improvement_only ⟨some 0, some 2, some 10, some 20⟩
      ⟨1, some 1, some 5, some 11, some 21⟩ 2 5 rfl rfl).2.2 (by norm_num)⟩

/-- C10 counterexample: an incoming row with NULL confidence proxy DOES
overwrite an existing stored record — the stored confidence proxy becomes
NULL, because SQLite scalar `MAX` returns NULL when any argument is NULL. -/
theorem C10_null_confidence_counterexample :
    mergeStored ⟨some 0, some 2, some 10, some 20⟩ ⟨1, some 1, none, some 99, some 98⟩ =
      ⟨some 0, none, some 10, some 20⟩ ∧
    mergeStored ⟨some 0, some 2, some 10, some 20⟩ ⟨1, some 1, none, some 99, some 98⟩ ≠
      ⟨some 0, some 2, some 10, some 20⟩ := by
  constructor
  · rfl
  · decide

/-- C10 amended: a stored record with NULL confidence proxy is never changed
by any incoming row (comparison and `MAX` both yield NULL); an incoming row
with NULL confidence proxy never overwrites the stored prediction label or
centroid coordinates, but it does reset the stored confidence proxy to NULL. -/
theorem C10_null_confidence_amended (s : Stored) (r : Row) :
    (s.n_predictions = none → mergeStored s r = s) ∧
    (r.n_predictions = none → mergeStored s r = { s with n_predictions := none }) := by
  obtain ⟨p1, n1, a1, g1⟩ := s
  obtain ⟨i2, p2, n2, a2, g2⟩ := r
  constructor
  · intro h
    simp only at h
    subst h
    cases n2 <;> simp [mergeStored, sqlGt, sqlMax]
  · intro h
    simp only at h
    subst h
    cases n1 <;> simp [mergeStored, sqlGt, sqlMax]

/-- Witness for the amended C10 on concrete records. -/
theorem C10_null_confidence_amended_witness :
    mergeStored ⟨some 0, none, some 10, some 20⟩ ⟨1, some 1, none, some 99, some 98⟩ =
      ⟨some 0, none, some 10, some 20⟩ ∧
    mergeStored ⟨some 0, some 2, some 10, some 20⟩ ⟨1, some 1, none, some 99, some 98⟩ =
      { (⟨some 0, some 2, some 10, some 20⟩ : Stored) with n_predictions := none } :=
  ⟨(C10_null_confidence_amended ⟨some 0, none, some 10, some 20⟩
      ⟨1, some 1, none, some 99, some 98⟩).1 rfl,
   (C10_null_confidence_amended ⟨some 0, some 2, some 10, some 20⟩
      ⟨1, some 1, none, some 99, some 98⟩).2 rfl⟩

/-! ## Idempotence of the merge pipeline -/

theorem confDominates_self (c : Option ℚ) : ConfDominates c c := by
  cases c <;> simp [ConfDominates, sqlGt, sqlMax]

theorem confDominates_sqlMax (m c : Option ℚ) : ConfDominates (sqlMax m c) c := by
  cases m with
  | none => cases c <;> simp [ConfDominates, sqlGt, sqlMax]
  | some a =>
    cases c with
    | none => simp [ConfDominates, sqlGt, sqlMax]
    | some b =>
      refine ⟨?_, ?_⟩
      · simp [sqlGt, sqlMax]
      · simp only [sqlMax]
        rw [max_assoc, max_self]

theorem confDominates_persist (m d c : Option ℚ) (h : ConfDominates m c) :
    ConfDominates (sqlMax m d) c := by
  cases m with
  | none => cases d <;> cases c <;> simp_all [ConfDominates, sqlGt, sqlMax]
  | some a =>
    cases c with
    | none => simp [ConfDominates, sqlMax] at h
    | some b =>
      obtain ⟨h1, h2⟩ := h
      simp only [sqlMax, Option.some.injEq] at h2
      have hba : b ≤ a := max_eq_left_iff.mp h2
      cases d with
      | none => simp [ConfDominates, sqlGt, sqlMax]
      | some e =>
        refine ⟨?_, ?_⟩
        · simp only [sqlMax, sqlGt, decide_eq_false_iff_not, not_lt]
          exact hba.trans (le_max_left a e)
        · simp only [sqlMax, Option.some.injEq]
          exact max_eq_left (hba.trans (le_max_left a e))

/-- After an upsert sequence, any key that mapped to a record whose
confidence dominates `c` still maps to a record whose confidence
dominates `c`. -/
theorem lookupT_insertBatch_persist (rs : List Row) (t : Table) (k : ℤ) (s : Stored)
    (c : Option ℚ) (hl : lookupT t k = some s) (hd : ConfDominates s.n_predictions c) :
    ∃ s2, lookupT (insertBatch t rs) k = some s2 ∧ ConfDominates s2.n_predictions c := by
  induction rs generalizing t s with
  | nil => exact ⟨s, hl, hd⟩
  | cons r rest ih =>
    show ∃ s2, lookupT (insertBatch (upsert1 t r) rest) k = some s2 ∧ _
    by_cases hk : k = r.osm_id
    · have hstep : lookupT (upsert1 t r) k = some (mergeStored s r) := by
        rw [hk, lookupT_upsert1_self, ← hk, hl]
      exact ih (upsert1 t r) (mergeStored s r) hstep
        (confDominates_persist _ _ _ hd)
    · exact ih (upsert1 t r) s (by rw [lookupT_upsert1_other t r k hk]; exact hl) hd

/-- Every row fed into an upsert sequence ends dominated by the final
stored confidence at its key. -/
theorem lookupT_insertBatch_mem (rs : List Row) :
    ∀ (t : Table) (r : Row), r ∈ rs →
    ∃ s, lookupT (insertBatch t rs) r.osm_id = some s ∧
      ConfDominates s.n_predictions r.n_predictions := by
  induction rs with
  | nil => intro t r hr; cases hr
  | cons r0 rest ih =>
    intro t r hr
    rcases List.mem_cons.mp hr with h0 | hmem
    · subst h0
      show ∃ s, lookupT (insertBatch (upsert1 t r) rest) r.osm_id = some s ∧ _
      have hself := lookupT_upsert1_self t r
      cases hcase : lookupT t r.osm_id with
      | none =>
        rw [hcase] at hself
        exact lookupT_insertBatch_persist rest (upsert1 t r) r.osm_id (rowToStored r)
          r.n_predictions hself (confDominates_self _)
      | some s0 =>
        rw [hcase] at hself
        exact lookupT_insertBatch_persist rest (upsert1 t r) r.osm_id (mergeStored s0 r)
          r.n_predictions hself (confDominates_sqlMax _ _)
    · exact ih (upsert1 t r0) r hmem

/-- A dominated incoming confidence makes the conflict update a no-op on
every field. -/
theorem mergeStored_of_confDominates (s : Stored) (r : Row)
    (h : ConfDominates s.n_predictions r.n_predictions) : mergeStored s r = s := by
  obtain ⟨h1, h2⟩ := h
  obtain ⟨p, n, a, g⟩ := s
  simp only at h1 h2
  simp [mergeStored, h1, h2]

/-- An upsert whose key maps to a record the update leaves unchanged is the
identity on the whole table. -/
theorem upsert1_noop (t : Table) (r : Row) (s : Stored)
    (hl : lookupT t r.osm_id = some s) (hm : mergeStored s r = s) :
    upsert1 t r = t := by
  induction t with
  | nil => simp [lookupT] at hl
  | cons p rest ih =>
    obtain ⟨k, s0⟩ := p
    by_cases hk : k = r.osm_id
    · subst hk
      have hs : s0 = s := by simpa [lookupT] using hl
      subst hs
      simp [upsert1, hm]
    · have hl' : lookupT rest r.osm_id = some s := by simpa [lookupT, hk] using hl
      simp [upsert1, hk, ih hl']

theorem insertBatch_noop (t : Table) (rs : List Row)
    (h : ∀ r ∈ rs, upsert1 t r = t) : insertBatch t rs = t := by
  induction rs with
  | nil => rfl
  | cons r rest ih =>
    show insertBatch (upsert1 t r) rest = t
    rw [h r (List.mem_cons_self r rest)]
    exact ih fun r' hr' => h r' (List.mem_cons_of_mem r hr')

theorem applyBatches_eq_flatten (bs : List (List Row)) (t : Table) :
    applyBatches t bs = insertBatch t bs.flatten := by
  induction bs generalizing t with
  | nil => rfl
  | cons b rest ih =>
    show applyBatches (insertBatch t b) rest = _
    rw [ih, List.flatten_cons]
    simp [insertBatch, List.foldl_append]

/-- C4: the merge pipeline is idempotent — applying the same sequence of
extracted batches a second time leaves the output record set exactly as
after the first application, from any starting table. -/
theorem C4_pipeline_idempotent (t : Table) (bs : List (List Row)) :
    applyBatches (applyBatches t bs) bs = applyBatches t bs := by
  rw [applyBatches_eq_flatten, applyBatches_eq_flatten]
  apply insertBatch_noop
  intro r hr
  obtain ⟨s, hl, hd⟩ := lookupT_insertBatch_mem bs.flatten t r hr
  exact upsert1_noop _ r s hl (mergeStored_of_confDominates s r hd)

/-- C2 counterexample: the pair `(7, 2)` passes validation (each bound lies
in `0..39` and is checked independently) and resolves to the EMPTY shard
list `range(7, 3)` — it is not a validation failure. -/
theorem C2_reversed_pair_counterexample :
    resolveFileRange [7, 2] = some [] ∧ resolveFileRange [7, 2] ≠ none := by
  constructor
  · decide
  · decide

/-- C2 amended: `()` resolves to the full 40-shard set `0..39`; `(5,)` to
exactly shard 5; `(2, 7)` to the 6 shards `2..7`; a single out-of-bounds
argument, a pair with either bound out of bounds, and more than two
arguments each fail validation; but the reversed in-bounds pair `(7, 2)`
passes validation and resolves to the empty shard list. -/
theorem C2_range_resolution_amended :
    resolveFileRange [] = some (pyRange 0 40) ∧
    (pyRange 0 40).length = 40 ∧
    resolveFileRange [5] = some [5] ∧
    resolveFileRange [2, 7] = some [2, 3, 4, 5, 6, 7] ∧
    resolveFileRange [7, 2] = some [] ∧
    (∀ n : ℤ, ¬ (0 ≤ n ∧ n < NUM_FILES) → resolveFileRange [n] = none) ∧
    (∀ lo hi : ℤ, ¬ (0 ≤ lo ∧ lo < NUM_FILES) ∨ ¬ (0 ≤ hi ∧ hi < NUM_FILES) →
      resolveFileRange [lo, hi] = none) ∧
    (∀ files : List ℤ, 2 < files.length → resolveFileRange files = none) := by
  refine ⟨by decide, by decide, by decide, by decide, by decide, ?_, ?_, ?_⟩
  · intro n hn
    simp [resolveFileRange, hn]
  · intro lo hi h
    have hc : ¬ ((0 ≤ lo ∧ lo < NUM_FILES) ∧ (0 ≤ hi ∧ hi < NUM_FILES)) := by
      rcases h with h | h <;> tauto
    simp [resolveFileRange, hc]
  · intro files hf
    match files with
    | [] => simp at hf
    | [a] => simp at hf
    | [a, b] => simp at hf
    | a :: b :: c :: rest => rfl

/-- Witness for the amended C2 at concrete invalid inputs. -/
theorem C2_range_resolution_amended_witness :
    resolveFileRange [41] = none ∧
    resolveFileRange [0, 40] = none ∧
    resolveFileRange [1, 2, 3] = none :=
  ⟨C2_range_resolution_amended.2.2.2.2.2.1 41 (by simp [NUM_FILES]),
   C2_range_resolution_amended.2.2.2.2.2.2.1 0 40 (Or.inr (by simp [NUM_FILES])),
   C2_range_resolution_amended.2.2.2.2.2.2.2 [1, 2, 3] (by norm_num)⟩

/-! ## Resume ledger, failure handling, temp files -/

theorem processSource_ledger_mono (world : ℤ → DownloadResult) (st : PipelineState)
    (i : ℤ) (x : String) (h : x ∈ st.ledger) :
    x ∈ (processSource world st i).ledger := by
  by_cases hsk : fileName i ∈ st.ledger
  · simpa [processSource, hsk] using h
  · rcases hw : world i with b | g
    · simpa [processSource, hsk, hw] using h
    · rcases hx : extractSurfaceData g st.table with e | ⟨t2, a, c⟩
      · simpa [processSource, hsk, hw, hx] using h
      · simp [processSource, hsk, hw, hx, List.mem_append, h]

theorem processSource_log_notin (world : ℤ → DownloadResult) (st : PipelineState)
    (i k : ℤ) (h : fileName k ∈ st.ledger) :
    (k ∉ st.downloadLog → k ∉ (processSource world st i).downloadLog) ∧
    (k ∉ st.extractLog → k ∉ (processSource world st i).extractLog) := by
  by_cases hsk : fileName i ∈ st.ledger
  · simp [processSource, hsk]
  · have hik : ¬ k = i := fun he => hsk (by rw [← he]; exact h)
    rcases hw : world i with b | g
    · constructor <;> intro hk <;>
        simp [processSource, hsk, hw, List.mem_append, hk, hik]
    · rcases hx : extractSurfaceData g st.table with e | ⟨t2, a, c⟩
      · constructor <;> intro hk <;>
          simp [processSource, hsk, hw, hx, List.mem_append, hk, hik]
      · constructor <;> intro hk <;>
          simp [processSource, hsk, hw, hx, List.mem_append, hk, hik]

theorem runFiles_log_notin (world : ℤ → DownloadResult) (fs : List ℤ) :
    ∀ (st : PipelineState) (k : ℤ), fileName k ∈ st.ledger →
    (k ∉ st.downloadLog → k ∉ (runFiles world st fs).downloadLog) ∧
    (k ∉ st.extractLog → k ∉ (runFiles world st fs).extractLog) := by
  induction fs with
  | nil => intro st k _; exact ⟨id, id⟩
  | cons i rest ih =>
    intro st k h
    have hstep := processSource_log_notin world st i k h
    have hled := processSource_ledger_mono world st i _ h
    have hrest := ih (processSource world st i) k hled
    exact ⟨fun hk => hrest.1 (hstep.1 hk), fun hk => hrest.2 (hstep.2 hk)⟩

/-- C5: a file already marked complete in the ledger is skipped entirely —
the loop iteration for it is the identity on the whole state (no ledger
write, no table change), and over any subsequent range no download request
is issued for it and no extraction runs for it. -/
theorem C5_completed_file_skipped (world : ℤ → DownloadResult) (st : PipelineState)
    (k : ℤ) (fs : List ℤ) (h : fileName k ∈ st.ledger) :
    processSource world st k = st ∧
    (k ∉ st.downloadLog → k ∉ (runFiles world st fs).downloadLog) ∧
    (k ∉ st.extractLog → k ∉ (runFiles world st fs).extractLog) := by
  refine ⟨by simp [processSource, h], ?_, ?_⟩
  · exact (runFiles_log_notin world fs st k h).1
  · exact (runFiles_log_notin world fs st k h).2

/-- Witness for C5: file 3 marked complete, run over `[2, 3, 4]`. -/
theorem C5_completed_file_skipped_witness :
    processSource wMixed stDone 3 = stDone ∧
    (3 : ℤ) ∉ (runFiles wMixed stDone [2, 3, 4]).downloadLog ∧
    (3 : ℤ) ∉ (runFiles wMixed stDone [2, 3, 4]).extractLog := by
  have h := C5_completed_file_skipped wMixed stDone 3 [2, 3, 4] (by simp [stDone])
  exact ⟨h.1, h.2.1 (by simp [stDone]), h.2.2 (by simp [stDone])⟩

/-- C6: a download failure or an extraction exception for one file leaves
the ledger without a completion entry for it, does not abort the loop
(the run over `i :: rest` continues as the run over `rest` from the post-`i`
state), and a subsequent well-formed file is still processed and marked. -/
theorem C6_failure_is_not_fatal (world : ℤ → DownloadResult) (st : PipelineState)
    (i : ℤ) (hn : fileName i ∉ st.ledger)
    (hf : (∃ b, world i = .fail b) ∨
          (∃ g e, world i = .ok g ∧ extractSurfaceData g st.table = .error e)) :
    (processSource world st i).ledger = st.ledger ∧
    (∀ rest, runFiles world st (i :: rest) =
      runFiles world (processSource world st i) rest) ∧
    (∀ j g t2 a b, world j = .ok g →
      extractSurfaceData g (processSource world st i).table = .ok (t2, a, b) →
      fileName j ∉ st.ledger →
      fileName j ∈ (runFiles world st [i, j]).ledger) := by
  have hled : (processSource world st i).ledger = st.ledger := by
    rcases hf with ⟨b, hw⟩ | ⟨g, e, hw, hx⟩
    · simp [processSource, hn, hw]
    · simp [processSource, hn, hw, hx]
  refine ⟨hled, fun rest => rfl, ?_⟩
  intro j g t2 a b hwj hxj hnj
  show fileName j ∈ (processSource world (processSource world st i) j).ledger
  have hnj2 : fileName j ∉ (processSource world st i).ledger := by
    rw [hled]; exact hnj
  generalize hg : processSource world st i = st1 at hnj2 hxj ⊢
  simp [processSource, hnj2, hwj, hxj, List.mem_append]

/-- Witness for C6: file 0 fails to download, file 1 still gets processed
and marked. -/
theorem C6_failure_is_not_fatal_witness :
    (processSource wMixed initState 0).ledger = initState.ledger ∧
    fileName 1 ∈ (runFiles wMixed initState [0, 1]).ledger := by
  have h := C6_failure_is_not_fatal wMixed initState 0 (by simp [initState])
    (Or.inl ⟨true, rfl⟩)
  exact ⟨h.1, h.2.2 1 (.wellFormed "roads" "geom" [] []) [] 0 0 rfl rfl
    (by simp [initState])⟩

/-- C7 counterexample: when the download for file 0 fails with a partial
file written, the loop `continue`s before the `try`/`finally`, so the
temp file is NOT removed — it is still present at the end of that file's
processing. -/
theorem C7_download_failure_leaves_tmp_counterexample :
    (processSource wMixed initState 0).tmpLeft = [0] ∧
    initState.tmpLeft = [] := by
  constructor
  · rfl
  · rfl

/-- C7 amended: the temp file is removed on the success path and on every
extraction-failure path; on a download failure the cleanup step never runs,
so a partial file, when `curl` wrote one, remains at the temp path. -/
theorem C7_tmpfile_cleanup_amended (world : ℤ → DownloadResult) (st : PipelineState)
    (i : ℤ) (hn : fileName i ∉ st.ledger) :
    (∀ g, world i = .ok g → (processSource world st i).tmpLeft = st.tmpLeft) ∧
    (world i = .fail false → (processSource world st i).tmpLeft = st.tmpLeft) ∧
    (world i = .fail true → (processSource world st i).tmpLeft = st.tmpLeft ++ [i]) := by
  refine ⟨?_, ?_, ?_⟩
  · intro g hw
    rcases hx : extractSurfaceData g st.table with e | ⟨t2, a, c⟩ <;>
      simp [processSource, hn, hw, hx]
  · intro hw; simp [processSource, hn, hw]
  · intro hw; simp [processSource, hn, hw]

/-- Witness for the amended C7 on the three concrete paths. -/
theorem C7_tmpfile_cleanup_amended_witness :
    (processSource wMixed initState 1).tmpLeft = initState.tmpLeft ∧
    (processSource wMixed initState 2).tmpLeft = initState.tmpLeft ∧
    (processSource wMixed initState 0).tmpLeft = initState.tmpLeft ++ [0] := by
  have h1 := C7_tmpfile_cleanup_amended wMixed initState 1 (by simp [initState])
  have h2 := C7_tmpfile_cleanup_amended wMixed initState 2 (by simp [initState])
  have h0 := C7_tmpfile_cleanup_amended wMixed initState 0 (by simp [initState])
  exact ⟨h1.1 (.wellFormed "roads" "geom" [] []) rfl, h2.2.1 rfl, h0.2.2 rfl⟩

/-! ## Extractor filtering and key uniqueness -/

theorem mem_keys_upsert1 (t : Table) (r : Row) (x : ℤ)
    (h : x ∈ (upsert1 t r).map Prod.fst) :
    x ∈ t.map Prod.fst ∨ x = r.osm_id := by
  induction t with
  | nil =>
    right
    simpa [upsert1] using h
  | cons p rest ih =>
    obtain ⟨k, s⟩ := p
    by_cases hk : k = r.osm_id
    · simp only [upsert1, if_pos hk, List.map_cons, List.mem_cons] at h ⊢
      tauto
    · simp only [upsert1, if_neg hk, List.map_cons, List.mem_cons] at h ⊢
      rcases h with h | h
      · tauto
      · rcases ih h with h2 | h2 <;> tauto

theorem keys_nodup_upsert1 (t : Table) (r : Row) (h : (t.map Prod.fst).Nodup) :
    ((upsert1 t r).map Prod.fst).Nodup := by
  induction t with
  | nil => simp [upsert1]
  | cons p rest ih =>
    obtain ⟨k, s⟩ := p
    simp only [List.map_cons, List.nodup_cons] at h
    obtain ⟨hk_notin, hrest⟩ := h
    by_cases hk : k = r.osm_id
    · simp only [upsert1, if_pos hk, List.map_cons, List.nodup_cons]
      exact ⟨hk_notin, hrest⟩
    · simp only [upsert1, if_neg hk, List.map_cons, List.nodup_cons]
      refine ⟨fun hmem => ?_, ih hrest⟩
      rcases mem_keys_upsert1 rest r k hmem with h1 | h2
      · exact hk_notin h1
      · exact hk h2

theorem keys_nodup_insertBatch (rs : List Row) : ∀ t : Table,
    (t.map Prod.fst).Nodup → ((insertBatch t rs).map Prod.fst).Nodup := by
  induction rs with
  | nil => intro t h; exact h
  | cons r rest ih => intro t h; exact ih (upsert1 t r) (keys_nodup_upsert1 t r h)

theorem mem_keys_insertBatch (rs : List Row) : ∀ (t : Table) (x : ℤ),
    x ∈ (insertBatch t rs).map Prod.fst →
    x ∈ t.map Prod.fst ∨ ∃ r, r ∈ rs ∧ r.osm_id = x := by
  induction rs with
  | nil => intro t x h; exact Or.inl h
  | cons r rest ih =>
    intro t x h
    rcases ih (upsert1 t r) x h with h1 | ⟨r2, hr2, hid⟩
    · rcases mem_keys_upsert1 t r x h1 with h2 | h2
      · exact Or.inl h2
      · exact Or.inr ⟨r, List.mem_cons_self r rest, h2.symm⟩
    · exact Or.inr ⟨r2, List.mem_cons_of_mem r hr2, hid⟩

theorem lookupT_some_mem_keys (t : Table) (k : ℤ) (s : Stored)
    (h : lookupT t k = some s) : k ∈ t.map Prod.fst := by
  induction t with
  | nil => simp [lookupT] at h
  | cons p rest ih =>
    obtain ⟨k0, s0⟩ := p
    by_cases hk : k0 = k
    · simp [hk]
    · simp only [lookupT, if_neg hk] at h
      simp [List.map_cons, ih h]

/-- C8: every row the extractor emits comes from a feature with a non-null
classification; every key of the resulting record set traces back to such a
feature (a null-classified row is never present); the record set has no
duplicate keys; and every emitted row's key is present. -/
theorem C8_null_filter_and_unique_keys (features : List GpkgRow)
    (rtree : List RtreeEntry) :
    (∀ r ∈ extractRows features rtree,
      ∃ f, f ∈ features ∧ f.pred_class ≠ none ∧ r.osm_id = f.osm_id) ∧
    (∀ k s, lookupT (insertBatch [] (extractRows features rtree)) k = some s →
      ∃ f, f ∈ features ∧ f.pred_class ≠ none ∧ f.osm_id = k) ∧
    ((insertBatch [] (extractRows features rtree)).map Prod.fst).Nodup ∧
    (∀ r ∈ extractRows features rtree,
      ∃ s, lookupT (insertBatch [] (extractRows features rtree)) r.osm_id = some s) := by
  have hprov : ∀ r ∈ extractRows features rtree,
      ∃ f, f ∈ features ∧ f.pred_class ≠ none ∧ r.osm_id = f.osm_id := by
    intro r hr
    simp only [extractRows, List.mem_flatMap, List.mem_filter, List.mem_map] at hr
    obtain ⟨f, ⟨hf, hclass⟩, rt, hrt, hrow⟩ := hr
    refine ⟨f, hf, ?_, by rw [← hrow]; rfl⟩
    simpa [Option.isSome_iff_ne_none] using hclass
  refine ⟨hprov, ?_, ?_, ?_⟩
  · intro k s hl
    have hmem := lookupT_some_mem_keys _ k s hl
    rcases mem_keys_insertBatch _ [] k hmem with h | ⟨r, hr, hid⟩
    · simp at h
    · obtain ⟨f, hf, hc, hfid⟩ := hprov r hr
      exact ⟨f, hf, hc, by rw [← hfid, hid]⟩
  · exact keys_nodup_insertBatch _ [] (by simp)
  · intro r hr
    obtain ⟨s, hs, _⟩ := lookupT_insertBatch_mem (extractRows features rtree) [] r hr
    exact ⟨s, hs⟩

theorem extractRows_features0 : extractRows features0 rtree0 = [row0] := by
  simp only [extractRows, features0, rtree0, row0]
  norm_num [mkRow, Row.mk.injEq]

/-- Witness for C8 on the concrete two-row shard. -/
theorem C8_null_filter_and_unique_keys_witness :
    (∃ f, f ∈ features0 ∧ f.pred_class ≠ none ∧ row0.osm_id = f.osm_id) ∧
    (∃ f, f ∈ features0 ∧ f.pred_class ≠ none ∧ f.osm_id = 7) ∧
    (∃ s, lookupT (insertBatch [] (extractRows features0 rtree0)) row0.osm_id
      = some s) := by
  have h := C8_null_filter_and_unique_keys features0 rtree0
  have hmem : row0 ∈ extractRows features0 rtree0 := by
    rw [extractRows_features0]
    exact List.mem_singleton_self row0
  have hl : lookupT (insertBatch [] (extractRows features0 rtree0)) 7 =
      some (rowToStored row0) := by
    rw [extractRows_features0]
    rfl
  exact ⟨h.1 row0 hmem, h.2.1 7 (rowToStored row0) hl, h.2.2.2 row0 hmem⟩

/-- C9: for an empty shard the extractor reports a total of zero rows, and
the report computation `ml_count*100/scanned` of `main` is a division by
zero (undefined) there; for a non-zero total it is exactly
`ml_count*100/scanned`, with no guard. -/
theorem C9_empty_shard_percentage_undefined (tn gc : String)
    (rtree : List RtreeEntry) (t : Table) :
    extractSurfaceData (.wellFormed tn gc [] rtree) t = .ok (t, 0, 0) ∧
    mlPercentage 0 0 = none ∧
    (∀ ml total : ℕ, total ≠ 0 →
      mlPercentage ml total = some ((ml * 100 : ℚ) / total)) := by
  refine ⟨rfl, rfl, ?_⟩
  intro ml total h
  simp [mlPercentage, h]

/-- Witness for C9: concrete empty shard, and the formula at 13/100. -/
theorem C9_empty_shard_percentage_undefined_witness :
    extractSurfaceData (.wellFormed "roads" "geom" [] []) [] = .ok ([], 0, 0) ∧
    mlPercentage 13 100 = some 13 := by
  have h := C9_empty_shard_percentage_undefined "roads" "geom" [] []
  refine ⟨h.1, ?_⟩
  rw [h.2.2 13 100 (by norm_num)]
  norm_num

end HeigitSurface
